import Mathlib

/-!
Verification model of the Thai-to-Taiwanese voice translation front end.

Shallow embedding of the repository's source:
* `AudioUtils`  models `src/utils/audioUtils.ts` (PCM codec and base64 transport);
* `GeminiLive`  models `src/services/geminiLiveService.ts` (playback scheduler,
  interruption handling, disconnect);
* `AppModel`    models `src/App.tsx` (transcript history, connect flow).

Real amplitudes are modelled as exact rationals; JavaScript 16-bit integer
conversion is modelled by explicit truncation toward zero.
-/

namespace AudioUtils

/-- Truncation toward zero of a rational number, modelling the fractional-part
discarding of the JavaScript ToInt16 conversion performed by an Int16Array
store (the stored values are already clamped into range by the caller). -/
def truncToward0 (q : ℚ) : ℤ :=
  if q < 0 then -(Int.floor (-q)) else Int.floor q

/-- One sample of createPcmBlob (src/utils/audioUtils.ts lines 7-12):
clamp to [-1, 1], then scale by 0x8000 for negative samples and by 0x7FFF
otherwise, and store into an Int16Array (truncation toward zero). -/
def encodeSample (v : ℚ) : ℤ :=
  let s := max (-1) (min 1 v)
  if s < 0 then truncToward0 (s * 32768) else truncToward0 (s * 32767)

/-- One sample of decodeAudioData (src/utils/audioUtils.ts line 57):
the Int16 value divided by 32768.0. -/
def decodeSample (z : ℤ) : ℚ := (z : ℚ) / 32768

/-- Little-endian byte pair of a 16-bit signed integer, the layout of the
Int16Array backing buffer read through new Uint8Array(int16.buffer). -/
def int16ToBytes (z : ℤ) : List ℕ :=
  let u := (z % 65536).toNat
  [u % 256, u / 256]

/-- Reading a 16-bit signed integer back from its little-endian byte pair,
as new Int16Array(bytes.buffer) does in decodeAudioData. -/
def bytesToInt16 (b0 b1 : ℕ) : ℤ :=
  let u := b0 + 256 * b1
  if u < 32768 then (u : ℤ) else (u : ℤ) - 65536

/-- The base64 alphabet used by btoa. -/
def b64Table : List Char :=
  "ABCDEFGHIJKLMNOPQRSTUVWXYZabcdefghijklmnopqrstuvwxyz0123456789+/".toList

/-- Character for a 6-bit group. -/
def sextetChar (n : ℕ) : Char := b64Table.getD n 'A'

/-- 6-bit group of a base64 character. -/
def charSextet (c : Char) : ℕ := b64Table.indexOf c

/-- Base64 encoder (the encode helper of src/utils/audioUtils.ts, i.e. btoa
applied to the byte string): bytes are consumed three at a time, with the
standard padding for a trailing group of one or two bytes. -/
def encode : List ℕ → List Char
  | [] => []
  | [a] => [sextetChar (a / 4), sextetChar (a % 4 * 16), '=', '=']
  | [a, b] => [sextetChar (a / 4), sextetChar (a % 4 * 16 + b / 16),
               sextetChar (b % 16 * 4), '=']
  | a :: b :: c :: rest =>
      sextetChar (a / 4) :: sextetChar (a % 4 * 16 + b / 16) ::
      sextetChar (b % 16 * 4 + c / 64) :: sextetChar (c % 64) :: encode rest

/-- Base64 decoder (the decode helper of src/utils/audioUtils.ts, i.e. atob
followed by charCodeAt packing): characters are consumed four at a time,
honouring the padding characters. -/
def decode : List Char → List ℕ
  | c1 :: c2 :: c3 :: c4 :: rest =>
      if c3 = '=' then
        [charSextet c1 * 4 + charSextet c2 / 16]
      else if c4 = '=' then
        [charSextet c1 * 4 + charSextet c2 / 16,
         charSextet c2 % 16 * 16 + charSextet c3 / 4]
      else
        (charSextet c1 * 4 + charSextet c2 / 16) ::
        (charSextet c2 % 16 * 16 + charSextet c3 / 4) ::
        (charSextet c3 % 4 * 64 + charSextet c4) :: decode rest
  | _ => []

/-- The blob produced by createPcmBlob: base64 payload plus mime type. -/
structure PcmBlob where
  data : List Char
  mimeType : String
deriving DecidableEq

/-- createPcmBlob (src/utils/audioUtils.ts lines 4-18): every float sample is
clamped and converted to Int16, the Int16Array buffer is viewed as bytes and
base64-encoded, and the mime type records the sample rate. -/
def createPcmBlob (samples : List ℚ) (sampleRate : ℕ) : PcmBlob :=
  { data := encode ((samples.map encodeSample).flatMap int16ToBytes)
    mimeType := "audio/pcm;rate=" ++ toString sampleRate }

/-- Byte list to Int16 list, as new Int16Array(bytes.buffer) (the byte length
produced by createPcmBlob is always even). -/
def bytesToInts : List ℕ → List ℤ
  | b0 :: b1 :: rest => bytesToInt16 b0 b1 :: bytesToInts rest
  | _ => []

/-- decodeAudioData (src/utils/audioUtils.ts lines 42-61) at its call site
(mono, numChannels = 1): base64 payload to bytes, bytes to Int16 frames, and
each frame divided by 32768.0.  The AudioContext and sample-rate arguments of
the source function only shape the AudioBuffer container, not the samples. -/
def decodeAudioData (base64Str : List Char) : List ℚ :=
  (bytesToInts (decode base64Str)).map decodeSample

end AudioUtils

namespace GeminiLive

/-- A playback segment: an AudioBufferSourceNode started at `startTime` whose
buffer lasts `duration` seconds. -/
structure Segment where
  startTime : ℚ
  duration : ℚ
deriving DecidableEq

/-- Result of awaiting decodeAudioData on one inbound chunk inside the try
block: either the decoded buffer's duration, or a thrown decode error. -/
inductive DecodeResult
  | fail
  | buf (duration : ℚ)
deriving DecidableEq

/-- The parts of a LiveServerMessage that handleServerMessage reads
(src/services/geminiLiveService.ts lines 144-191).  `audio` stands for
serverContent.modelTurn.parts[0].inlineData.data together with the outcome of
decoding it; it is `none` when the message carries no (non-empty) audio
payload. -/
structure ServerMessage where
  inputTranscription : Option String
  outputTranscription : Option String
  turnComplete : Bool
  audio : Option DecodeResult
  interrupted : Bool
deriving DecidableEq

/-- One invocation of the onTranscription callback. -/
structure TranscriptionCall where
  text : String
  isUser : Bool
  isFinal : Bool
deriving DecidableEq

/-- The playback-relevant mutable state of GeminiLiveService.  `sources` is
the active-segment set (insertion order kept); `stoppedAt` is a history
variable recording every source.stop() call with the clock time at which it
happened, and `log` is a history variable recording every source.start()
scheduling; neither history variable influences the computation. -/
structure PlayerState where
  nextStartTime : ℚ
  sources : List Segment
  stoppedAt : List (Segment × ℚ)
  log : List Segment
deriving DecidableEq

/-- The transcription callbacks fired for one message (lines 146-152): the
input fragment first, then the output fragment, both with isFinal = false. -/
def transcriptionCalls (m : ServerMessage) : List TranscriptionCall :=
  (match m.inputTranscription with
   | some text => [⟨text, true, false⟩]
   | none => []) ++
  (match m.outputTranscription with
   | some text => [⟨text, false, false⟩]
   | none => [])

/-- The audio block of handleServerMessage (lines 158-180), at clock time `t`
(outputAudioContext.currentTime).  The watermark is first clamped to the
current time, then decodeAudioData is awaited; on success a source is started
at the watermark, the watermark advances by the buffer's duration, and the
source joins the active set; the catch block only logs, so a decode failure
leaves everything except the clamped watermark unchanged. -/
def handleAudio (st : PlayerState) (t : ℚ) : Option DecodeResult → PlayerState
  | none => st
  | some .fail => { st with nextStartTime := max st.nextStartTime t }
  | some (.buf d) =>
      let start := max st.nextStartTime t
      { st with
        nextStartTime := start + d
        sources := st.sources ++ [⟨start, d⟩]
        log := st.log ++ [⟨start, d⟩] }

/-- The interruption block of handleServerMessage (lines 182-190), at clock
time `t`: every active source is stopped, the set is cleared, and
nextStartTime is set to 0. -/
def handleInterruption (st : PlayerState) (t : ℚ) : Bool → PlayerState
  | false => st
  | true =>
      { st with
        nextStartTime := 0
        sources := []
        stoppedAt := st.stoppedAt ++ st.sources.map (fun s => (s, t)) }

/-- handleServerMessage (lines 144-191): transcription callbacks, then the
audio block, then the interruption block, returning the new player state and
the callbacks fired. -/
def handleServerMessage (st : PlayerState) (t : ℚ) (m : ServerMessage) :
    PlayerState × List TranscriptionCall :=
  (handleInterruption (handleAudio st t m.audio) t m.interrupted,
   transcriptionCalls m)

/-- The listener installed at line 170: natural completion removes the
source from the active set. -/
def handleEnded (st : PlayerState) (s : Segment) : PlayerState :=
  { st with sources := st.sources.erase s }

/-- Handling a sequence of server messages, each paired with the clock time
at which its callback runs; the fired transcription callbacks are collected
in order. -/
def runMessages (st : PlayerState) :
    List (ℚ × ServerMessage) → PlayerState × List TranscriptionCall
  | [] => (st, [])
  | (t, m) :: rest =>
      let r := handleServerMessage st t m
      let r2 := runMessages r.1 rest
      (r2.1, r.2 ++ r2.2)

/-- A message carrying only an audio chunk that decodes to duration `d`. -/
def audioMsg (d : ℚ) : ServerMessage := ⟨none, none, false, some (.buf d), false⟩

/-- A message carrying only the interruption flag. -/
def interruptMsg : ServerMessage := ⟨none, none, false, none, true⟩

/-- A message carrying only an audio chunk whose decode throws. -/
def failMsg : ServerMessage := ⟨none, none, false, some .fail, false⟩

/-- A stream of plain audio chunks: arrival clock time paired with decoded
duration. -/
def audioEvents (evs : List (ℚ × ℚ)) : List (ℚ × ServerMessage) :=
  evs.map (fun p => (p.1, audioMsg p.2))

/-- A source started at `s.startTime` and stopped at time `ts` (if ever)
produces audio at time `τ` only under these conditions. -/
def playsAt (s : Segment) (stopTime : Option ℚ) (τ : ℚ) : Prop :=
  s.startTime ≤ τ ∧ τ < s.startTime + s.duration ∧
    ∀ ts, stopTime = some ts → τ < ts

/-- Arrival discipline for a chunk stream: every chunk arrives while the
clock has not passed the scheduler watermark (the queue has not drained),
the watermark evolving as handleServerMessage drives it. -/
def timelyFrom : ℚ → List (ℚ × ℚ) → Prop
  | _, [] => True
  | w, (t, d) :: rest => t ≤ w ∧ timelyFrom (max w t + d) rest

/-- Segments lined up back to back from a given start time. -/
def chainFrom : ℚ → List ℚ → List Segment
  | _, [] => []
  | w, d :: ds => ⟨w, d⟩ :: chainFrom (w + d) ds

/-- The segments a stream of plain audio chunks gets scheduled as, starting
from watermark `w`: each chunk starts at max(w, t) and the watermark then
advances by its duration.  Specification-side mirror of the `log` field. -/
def scheduleList : ℚ → List (ℚ × ℚ) → List Segment
  | _, [] => []
  | w, (t, d) :: rest => ⟨max w t, d⟩ :: scheduleList (max w t + d) rest

/-- An AudioContext, reduced to whether it has been closed. -/
structure AudioCtx where
  closed : Bool
deriving DecidableEq

/-- AudioContext.close: resolves on an open context and rejects with an
InvalidStateError on an already-closed one. -/
def closeCtx : AudioCtx → Except String AudioCtx
  | ⟨true⟩ => .error "InvalidStateError"
  | ⟨false⟩ => .ok ⟨true⟩

/-- The resource-holding fields of GeminiLiveService (lines 10-17): the two
node fields matter only as null-or-not, the contexts as null-or-open-or-
closed, plus the player state and the session reference. -/
structure ServiceState where
  inputSource : Bool
  scriptProcessor : Bool
  inputAudioContext : Option AudioCtx
  outputAudioContext : Option AudioCtx
  player : PlayerState
  session : Bool
deriving DecidableEq

/-- disconnect (src/services/geminiLiveService.ts lines 193-220) at clock
time `t`: null-guarded disconnect of the two capture nodes, null-guarded
close of the input context, stop (inside try/catch, so it never throws) and
clear of every scheduled source, null-guarded close of the output context,
and finally dropping the session reference.  A rejected close propagates. -/
def disconnect (t : ℚ) (s : ServiceState) : Except String ServiceState :=
  let s1 : ServiceState := { s with inputSource := false, scriptProcessor := false }
  let afterInput : Except String ServiceState :=
    match s1.inputAudioContext with
    | none => .ok s1
    | some c =>
        match closeCtx c with
        | .error e => .error e
        | .ok _ => .ok { s1 with inputAudioContext := none }
  match afterInput with
  | .error e => .error e
  | .ok s2 =>
      let p := s2.player
      let s3 : ServiceState :=
        { s2 with
          player := { p with
            sources := []
            stoppedAt := p.stoppedAt ++ p.sources.map (fun seg => (seg, t)) } }
      match s3.outputAudioContext with
      | none => .ok { s3 with session := false }
      | some c =>
          match closeCtx c with
          | .error e => .error e
          | .ok _ => .ok { s3 with outputAudioContext := none, session := false }

end GeminiLive

namespace AppModel

/-- The sender tag of a transcript item (src/types.ts). -/
inductive Sender
  | user
  | model
deriving DecidableEq

/-- TranscriptionItem (src/types.ts lines 1-7). -/
structure TranscriptionItem where
  id : String
  text : String
  sender : Sender
  timestamp : ℚ
  isFinal : Bool
deriving DecidableEq

/-- ConnectionState (src/types.ts lines 9-14). -/
inductive ConnectionState
  | disconnected
  | connecting
  | connected
  | error
deriving DecidableEq

/-- JavaScript String.prototype.trim: strip leading and trailing
whitespace. -/
def jsTrim (s : String) : String :=
  ⟨((s.data.dropWhile Char.isWhitespace).reverse.dropWhile Char.isWhitespace).reverse⟩

/-- The material handleTranscription captures when it fires: the id built
from Date.now() and Math.random(), and the Date captured as `now`. -/
structure ItemMeta where
  id : String
  now : ℚ
deriving DecidableEq

/-- handleTranscription (src/App.tsx lines 18-33): the functional update
passed to setTranscriptionHistory.  Whitespace-only text leaves the history
unchanged; otherwise one new item is appended at the end. -/
def handleTranscription (prev : List TranscriptionItem) (meta : ItemMeta)
    (text : String) (isUser : Bool) (isFinal : Bool) : List TranscriptionItem :=
  if jsTrim text = "" then prev
  else prev ++ [⟨meta.id, text, if isUser then .user else .model, meta.now, isFinal⟩]

/-- One firing of the transcription callback together with the meta data
captured at that firing. -/
structure TEvent where
  text : String
  isUser : Bool
  isFinal : Bool
  meta : ItemMeta
deriving DecidableEq

/-- The item a single callback firing contributes to the history, if any. -/
def mkItem (e : TEvent) : Option TranscriptionItem :=
  if jsTrim e.text = "" then none
  else some ⟨e.meta.id, e.text, if e.isUser then .user else .model, e.meta.now, e.isFinal⟩

/-- Folding a sequence of callback firings over the history, in firing
order (React serializes the functional updates in dispatch order). -/
def runTranscriptions (h : List TranscriptionItem) :
    List TEvent → List TranscriptionItem
  | [] => h
  | e :: es => runTranscriptions (handleTranscription h e.meta e.text e.isUser e.isFinal) es

/-- The App-level state handleConnect touches (src/App.tsx lines 9-12),
extended with audit fields counting acquired resources: whether a
GeminiLiveService was constructed, how many AudioContexts exist, whether
getUserMedia was called and whether the live session was requested. -/
structure AppState where
  connectionState : ConnectionState
  errorMsg : Option String
  serviceConstructed : Bool
  audioContextsCreated : ℕ
  micRequested : Bool
  sessionRequested : Bool
deriving DecidableEq

/-- JavaScript truthiness of process.env.API_KEY: undefined or the empty
string is falsy. -/
def falsyKey : Option String → Bool
  | none => true
  | some s => s.isEmpty

/-- service.connect (src/services/geminiLiveService.ts lines 26-118) from
the App's point of view: two AudioContexts are created first, then
getUserMedia runs; when the microphone is granted the live session is
requested and connect succeeds, otherwise the rejection propagates to the
caller's catch block.  (The real catch reports the thrown error's own
message; the model keeps just success or failure.) -/
def serviceConnect (micOk : Bool) (st : AppState) : AppState × Bool :=
  let st1 := { st with
    audioContextsCreated := st.audioContextsCreated + 2
    micRequested := true }
  if micOk then ({ st1 with sessionRequested := true }, true) else (st1, false)

/-- handleConnect (src/App.tsx lines 35-67): clear the error message, enter
CONNECTING; a falsy API key throws before the service is constructed and the
catch block records ERROR with the thrown message; otherwise the service is
constructed and its connect drives the outcome. -/
def handleConnect (apiKey : Option String) (micOk : Bool) (st : AppState) : AppState :=
  let st0 := { st with errorMsg := none, connectionState := .connecting }
  if falsyKey apiKey then
    { st0 with
      connectionState := .error
      errorMsg := some "API Key is missing in environment." }
  else
    let st1 := { st0 with serviceConstructed := true }
    match serviceConnect micOk st1 with
    | (st2, true) => { st2 with connectionState := .connected }
    | (st2, false) =>
        { st2 with
          connectionState := .error
          errorMsg := some "Failed to connect to microphone or API." }

end AppModel

namespace AudioUtils

lemma charSextet_sextetChar (n : ℕ) (h : n < 64) : charSextet (sextetChar n) = n := by
  have key : ∀ m : Fin 64, charSextet (sextetChar m.val) = m.val := by decide
  exact key ⟨n, h⟩

lemma sextetChar_ne_pad (n : ℕ) (h : n < 64) : sextetChar n ≠ '=' := by
  have key : ∀ m : Fin 64, sextetChar m.val ≠ '=' := by decide
  exact key ⟨n, h⟩

/-- The base64 transport is lossless: atob inverts btoa on byte strings. -/
lemma decode_encode : ∀ bs : List ℕ, (∀ b ∈ bs, b < 256) → decode (encode bs) = bs
  | [], _ => rfl
  | [a], h => by
      have ha : a < 256 := h a (by simp)
      have h1 : charSextet (sextetChar (a / 4)) = a / 4 :=
        charSextet_sextetChar _ (by omega)
      have h2 : charSextet (sextetChar (a % 4 * 16)) = a % 4 * 16 :=
        charSextet_sextetChar _ (by omega)
      simp only [encode, decode, if_pos]
      rw [h1, h2]
      have : a / 4 * 4 + a % 4 * 16 / 16 = a := by omega
      rw [this]
  | [a, b], h => by
      have ha : a < 256 := h a (by simp)
      have hb : b < 256 := h b (by simp)
      have h1 : charSextet (sextetChar (a / 4)) = a / 4 :=
        charSextet_sextetChar _ (by omega)
      have h2 : charSextet (sextetChar (a % 4 * 16 + b / 16)) = a % 4 * 16 + b / 16 :=
        charSextet_sextetChar _ (by omega)
      have h3 : charSextet (sextetChar (b % 16 * 4)) = b % 16 * 4 :=
        charSextet_sextetChar _ (by omega)
      simp only [encode, decode]
      rw [if_neg (sextetChar_ne_pad _ (by omega)), if_pos trivial, h1, h2, h3]
      have e1 : a / 4 * 4 + (a % 4 * 16 + b / 16) / 16 = a := by omega
      have e2 : (a % 4 * 16 + b / 16) % 16 * 16 + b % 16 * 4 / 4 = b := by omega
      rw [e1, e2]
  | a :: b :: c :: rest, h => by
      have ha : a < 256 := h a (by simp)
      have hb : b < 256 := h b (by simp)
      have hc : c < 256 := h c (by simp)
      have ih : decode (encode rest) = rest :=
        decode_encode rest (fun x hx => h x (by simp [hx]))
      have h1 : charSextet (sextetChar (a / 4)) = a / 4 :=
        charSextet_sextetChar _ (by omega)
      have h2 : charSextet (sextetChar (a % 4 * 16 + b / 16)) = a % 4 * 16 + b / 16 :=
        charSextet_sextetChar _ (by omega)
      have h3 : charSextet (sextetChar (b % 16 * 4 + c / 64)) = b % 16 * 4 + c / 64 :=
        charSextet_sextetChar _ (by omega)
      have h4 : charSextet (sextetChar (c % 64)) = c % 64 :=
        charSextet_sextetChar _ (by omega)
      simp only [encode, decode]
      rw [if_neg (sextetChar_ne_pad _ (by omega)), if_neg (sextetChar_ne_pad _ (by omega)),
        h1, h2, h3, h4, ih]
      have e1 : a / 4 * 4 + (a % 4 * 16 + b / 16) / 16 = a := by omega
      have e2 : (a % 4 * 16 + b / 16) % 16 * 16 + (b % 16 * 4 + c / 64) / 4 = b := by omega
      have e3 : (b % 16 * 4 + c / 64) % 4 * 64 + c % 64 = c := by omega
      rw [e1, e2, e3]

lemma int16_bytes_lt (z : ℤ) : ∀ b ∈ int16ToBytes z, b < 256 := by
  intro b hb
  have h0 : (0 : ℤ) ≤ z % 65536 := Int.emod_nonneg z (by norm_num)
  have h1 : z % 65536 < 65536 := Int.emod_lt_of_pos z (by norm_num)
  simp only [int16ToBytes, List.mem_cons, List.not_mem_nil, or_false] at hb
  rcases hb with h | h <;> omega

lemma bytesToInts_int16ToBytes (z : ℤ) (bs : List ℕ)
    (h1 : -32768 ≤ z) (h2 : z ≤ 32767) :
    bytesToInts (int16ToBytes z ++ bs) = z :: bytesToInts bs := by
  have h0 : (0 : ℤ) ≤ z % 65536 := Int.emod_nonneg z (by norm_num)
  have h3 : z % 65536 < 65536 := Int.emod_lt_of_pos z (by norm_num)
  simp only [int16ToBytes, List.cons_append, List.nil_append, bytesToInts]
  have : bytesToInt16 ((z % 65536).toNat % 256) ((z % 65536).toNat / 256) = z := by
    simp only [bytesToInt16]
    split <;> omega
  rw [this]
  rfl

lemma encodeSample_range (v : ℚ) :
    -32768 ≤ encodeSample v ∧ encodeSample v ≤ 32767 := by
  simp only [encodeSample, truncToward0]
  have hlo : (-1 : ℚ) ≤ max (-1) (min 1 v) := le_max_left _ _
  have hhi : max (-1) (min 1 v) ≤ 1 := max_le (by norm_num) (min_le_left _ _)
  set s := max (-1) (min 1 v) with hs
  split
  · next hneg =>
      have hq : s * 32768 < 0 := by nlinarith
      rw [if_pos hq]
      have ha : (Int.floor (-(s * 32768)) : ℚ) ≤ -(s * 32768) := Int.floor_le _
      have hge : (0 : ℤ) ≤ Int.floor (-(s * 32768)) :=
        Int.floor_nonneg.mpr (by linarith)
      have hle : Int.floor (-(s * 32768)) ≤ 32768 := by
        have hb : (-(s * 32768) : ℚ) ≤ 32768 := by linarith
        exact_mod_cast ha.trans hb
      constructor <;> omega
  · next hpos =>
      push_neg at hpos
      have hq : ¬ s * 32767 < 0 := by
        push_neg
        nlinarith
      rw [if_neg hq]
      have ha : (Int.floor (s * 32767) : ℚ) ≤ s * 32767 := Int.floor_le _
      have hge : (0 : ℤ) ≤ Int.floor (s * 32767) := Int.floor_nonneg.mpr (by linarith)
      have hle : Int.floor (s * 32767) ≤ 32767 := by
        have hb : (s * 32767 : ℚ) ≤ 32767 := by linarith
        exact_mod_cast ha.trans hb
      constructor <;> omega

/-- Per-sample quantization error of the codec pair: inside [-1, 1] the
encode-then-decode error is strictly below 1/16384.  (It is not below
1/32768: non-negative samples are scaled by 32767 on encode but divided by
32768 on decode.) -/
lemma quant_error (v : ℚ) (h1 : -1 ≤ v) (h2 : v ≤ 1) :
    |decodeSample (encodeSample v) - v| < 1 / 16384 := by
  have hclamp : max (-1) (min 1 v) = v := by
    rw [min_eq_right h2, max_eq_right h1]
  simp only [encodeSample, decodeSample, hclamp]
  split
  · next hneg =>
      have hq : v * 32768 < 0 := by linarith
      simp only [truncToward0, if_pos hq]
      have ha : (Int.floor (-(v * 32768)) : ℚ) ≤ -(v * 32768) := Int.floor_le _
      have hb : -(v * 32768) < Int.floor (-(v * 32768)) + 1 := Int.lt_floor_add_one _
      rw [abs_lt]
      push_cast
      constructor <;> linarith
  · next hpos =>
      push_neg at hpos
      have hq : ¬ v * 32767 < 0 := by
        push_neg
        positivity
      simp only [truncToward0, if_neg hq]
      have ha : (Int.floor (v * 32767) : ℚ) ≤ v * 32767 := Int.floor_le _
      have hb : v * 32767 < Int.floor (v * 32767) + 1 := Int.lt_floor_add_one _
      rw [abs_lt]
      constructor <;> linarith

/-- The full wire pipeline (clamp, Int16, little-endian bytes, base64, and
back) equals per-sample encode-then-decode. -/
lemma decodeAudioData_createPcmBlob (samples : List ℚ) (r : ℕ) :
    decodeAudioData (createPcmBlob samples r).data =
      samples.map (fun v => decodeSample (encodeSample v)) := by
  simp only [decodeAudioData, createPcmBlob]
  rw [decode_encode _ ?bound]
  case bound =>
    intro b hb
    rcases List.mem_flatMap.mp hb with ⟨z, _, hbz⟩
    exact int16_bytes_lt z b hbz
  induction samples with
  | nil => rfl
  | cons v vs ih =>
      simp only [List.map_cons, List.flatMap_cons]
      rw [bytesToInts_int16ToBytes _ _ (encodeSample_range v).1 (encodeSample_range v).2]
      simp only [List.map_cons] at ih ⊢
      rw [ih]

end AudioUtils

namespace GeminiLive

/-- The state of GeminiLiveService right after construction: nextStartTime
is 0 and the source set is empty (lines 16-17). -/
def initialPlayer : PlayerState := ⟨0, [], [], []⟩

/-- One plain audio chunk: the source is started at max(watermark, now),
the watermark advances by the chunk's duration, no callback fires. -/
lemma handleServerMessage_audioMsg (st : PlayerState) (t d : ℚ) :
    handleServerMessage st t (audioMsg d) =
      ({ st with
          nextStartTime := max st.nextStartTime t + d
          sources := st.sources ++ [⟨max st.nextStartTime t, d⟩]
          log := st.log ++ [⟨max st.nextStartTime t, d⟩] }, []) := rfl

/-- Running a stream of plain audio chunks appends exactly the schedule of
`scheduleList` to the start log. -/
lemma runMessages_audio_log (evs : List (ℚ × ℚ)) :
    ∀ st : PlayerState,
      ((runMessages st (audioEvents evs)).1).log =
        st.log ++ scheduleList st.nextStartTime evs := by
  induction evs with
  | nil => intro st; simp [runMessages, audioEvents, scheduleList]
  | cons e rest ih =>
      intro st
      obtain ⟨t, d⟩ := e
      simp only [audioEvents, List.map_cons] at ih ⊢
      simp only [runMessages, handleServerMessage_audioMsg, scheduleList]
      rw [ih]
      simp

/-- Under the timely-arrival discipline the code's schedule is the
back-to-back chain. -/
lemma scheduleList_timely (evs : List (ℚ × ℚ)) :
    ∀ w : ℚ, timelyFrom w evs →
      scheduleList w evs = chainFrom w (evs.map Prod.snd) := by
  induction evs with
  | nil => intro w _; rfl
  | cons e rest ih =>
      intro w h
      obtain ⟨t, d⟩ := e
      obtain ⟨h1, h2⟩ := h
      simp only [scheduleList, List.map_cons, chainFrom]
      rw [max_eq_left h1] at h2 ⊢
      rw [ih _ h2]

lemma chainFrom_map_duration (ds : List ℚ) :
    ∀ w : ℚ, (chainFrom w ds).map Segment.duration = ds := by
  induction ds with
  | nil => intro w; rfl
  | cons d ds ih => intro w; simp only [chainFrom, List.map_cons, ih]

lemma chainFrom_length (ds : List ℚ) :
    ∀ w : ℚ, (chainFrom w ds).length = ds.length := by
  induction ds with
  | nil => intro w; rfl
  | cons d ds ih => intro w; simp only [chainFrom, List.length_cons, ih]

lemma chainFrom_getD (ds : List ℚ) :
    ∀ (w : ℚ) (k : ℕ), k < ds.length →
      ((chainFrom w ds).getD k ⟨0, 0⟩).startTime = w + (ds.take k).sum := by
  induction ds with
  | nil => intro w k hk; simp at hk
  | cons d ds ih =>
      intro w k hk
      cases k with
      | zero => simp [chainFrom]
      | succ k =>
          simp only [chainFrom, List.getD_cons_succ, List.take_succ_cons, List.sum_cons]
          rw [ih _ k (by simpa using hk)]
          ring

end GeminiLive

namespace AppModel

/-- The App state right after mount (src/App.tsx lines 9-12): disconnected,
no error, nothing acquired. -/
def initialAppState : AppState := ⟨.disconnected, none, false, 0, false, false⟩

/-- Folding the callback firings equals appending the contributed items in
firing order. -/
lemma runTranscriptions_eq (evs : List TEvent) :
    ∀ h : List TranscriptionItem,
      runTranscriptions h evs = h ++ evs.filterMap mkItem := by
  induction evs with
  | nil => intro h; simp [runTranscriptions]
  | cons e es ih =>
      intro h
      simp only [runTranscriptions, List.filterMap_cons]
      rw [ih]
      by_cases hb : jsTrim e.text = ""
      · simp [handleTranscription, mkItem, hb]
      · simp [handleTranscription, mkItem, hb]

end AppModel

/-- C3 (amended): for every float sample sequence with all values in [-1,1],
encoding with createPcmBlob and then decoding the resulting base64 payload
back to float samples (as decodeAudioData does) reproduces each original
value with absolute error strictly less than 1/16384.  (The claimed bound of
1/32768 fails: non-negative samples are scaled by 0x7FFF on encode but
divided by 32768 on decode.) -/
theorem c3_pcm_roundtrip (samples : List ℚ) (r : ℕ)
    (hs : ∀ v ∈ samples, -1 ≤ v ∧ v ≤ 1) :
    List.Forall₂ (fun d v => |d - v| < 1 / 16384)
      (AudioUtils.decodeAudioData (AudioUtils.createPcmBlob samples r).data)
      samples := by
  rw [AudioUtils.decodeAudioData_createPcmBlob]
  revert hs
  induction samples with
  | nil =>
      intro hs
      simp
  | cons v vs ih =>
      intro hs
      simp only [List.map_cons, List.forall₂_cons]
      refine ⟨AudioUtils.quant_error v (hs v (by simp)).1 (hs v (by simp)).2, ?_⟩
      exact ih (fun x hx => hs x (by simp [hx]))

/-- C3 witness: the amended bound applied to the concrete sequence
[1/2, -1/3]. -/
theorem c3_pcm_roundtrip_witness :
    List.Forall₂ (fun d v => |d - v| < 1 / 16384)
      (AudioUtils.decodeAudioData
        (AudioUtils.createPcmBlob [(1 : ℚ)/2, -(1 : ℚ)/3] 16000).data)
      [(1 : ℚ)/2, -(1 : ℚ)/3] := by
  refine c3_pcm_roundtrip [(1 : ℚ)/2, -(1 : ℚ)/3] 16000 ?_
  intro v hv
  simp only [List.mem_cons, List.not_mem_nil, or_false] at hv
  rcases hv with h | h <;> subst h <;> constructor <;> norm_num

/-- C3 counterexample: at the in-range input 65533/65534 the round-trip
error exceeds 1/32768, so the claimed bound is false. -/
theorem c3_pcm_roundtrip_counterexample :
    ¬ List.Forall₂ (fun d v => |d - v| ≤ 1 / 32768)
      (AudioUtils.decodeAudioData
        (AudioUtils.createPcmBlob [(65533 : ℚ)/65534] 16000).data)
      [(65533 : ℚ)/65534] := by
  intro hF
  rw [AudioUtils.decodeAudioData_createPcmBlob] at hF
  simp only [List.map_cons, List.map_nil, List.forall₂_cons] at hF
  obtain ⟨h1, -⟩ := hF
  have he : AudioUtils.encodeSample ((65533 : ℚ)/65534) = 32766 := by
    simp only [AudioUtils.encodeSample, AudioUtils.truncToward0]
    rw [min_eq_right (by norm_num), max_eq_right (by norm_num)]
    rw [if_neg (by norm_num), if_neg (by norm_num)]
    norm_num
  rw [he] at h1
  simp only [AudioUtils.decodeSample] at h1
  rw [abs_le] at h1
  obtain ⟨hl, -⟩ := h1
  norm_num at hl

/-- C4: a sample above 1 encodes to exactly the output of 1, a sample below
-1 to exactly the output of -1, and every encoded value stays inside the
16-bit range [-32768, 32767], so no input causes integer wraparound. -/
theorem c4_clamping (v : ℚ) :
    (1 < v → AudioUtils.encodeSample v = AudioUtils.encodeSample 1) ∧
    (v < -1 → AudioUtils.encodeSample v = AudioUtils.encodeSample (-1)) ∧
    -32768 ≤ AudioUtils.encodeSample v ∧ AudioUtils.encodeSample v ≤ 32767 := by
  refine ⟨?_, ?_, (AudioUtils.encodeSample_range v).1,
    (AudioUtils.encodeSample_range v).2⟩
  · intro hv
    have h1 : min 1 v = 1 := min_eq_left (le_of_lt hv)
    simp only [AudioUtils.encodeSample, h1, min_self]
  · intro hv
    have h1 : min 1 v = v := min_eq_right (by linarith)
    have h2 : max (-1) v = -1 := max_eq_left (le_of_lt hv)
    have h3 : min (1 : ℚ) (-1) = -1 := by norm_num
    have h4 : max (-1 : ℚ) (-1) = -1 := max_self _
    simp only [AudioUtils.encodeSample, h1, h2, h3, h4]

/-- C4 witness: the clamping equalities and the range at the concrete
inputs 2 and -2. -/
theorem c4_clamping_witness :
    AudioUtils.encodeSample 2 = AudioUtils.encodeSample 1 ∧
    AudioUtils.encodeSample (-2) = AudioUtils.encodeSample (-1) ∧
    -32768 ≤ AudioUtils.encodeSample 2 ∧ AudioUtils.encodeSample 2 ≤ 32767 :=
  ⟨(c4_clamping 2).1 (by norm_num), (c4_clamping (-2)).2.1 (by norm_num),
   (c4_clamping 2).2.2.1, (c4_clamping 2).2.2.2⟩

/-- C1 (amended): each inbound audio segment is scheduled to start at
max(watermark, currentTime) and the watermark then advances by that
segment's duration; and provided every subsequent segment arrives while the
clock has not passed the watermark (the queued audio has not drained),
segment k starts exactly at the first segment's start time plus the sum of
the durations of segments 1..k-1 — no gap and no overlap.  (Without the
arrival-discipline hypothesis the sum formula fails, see the
counterexample: a chunk arriving after the queue drains starts at the
then-current time, leaving a gap.) -/
theorem c1_scheduler_gapfree (st : GeminiLive.PlayerState) (t1 d1 : ℚ)
    (rest : List (ℚ × ℚ)) (hlog : st.log = [])
    (ht : GeminiLive.timelyFrom (max st.nextStartTime t1 + d1) rest) :
    (GeminiLive.handleServerMessage st t1 (GeminiLive.audioMsg d1)).1.nextStartTime
        = max st.nextStartTime t1 + d1 ∧
    (GeminiLive.handleServerMessage st t1 (GeminiLive.audioMsg d1)).1.log
        = st.log ++ [⟨max st.nextStartTime t1, d1⟩] ∧
    ((GeminiLive.runMessages st
        (GeminiLive.audioEvents ((t1, d1) :: rest))).1.log).map
          GeminiLive.Segment.duration = d1 :: rest.map Prod.snd ∧
    ∀ k, k < ((GeminiLive.runMessages st
        (GeminiLive.audioEvents ((t1, d1) :: rest))).1.log).length →
      (((GeminiLive.runMessages st
          (GeminiLive.audioEvents ((t1, d1) :: rest))).1.log).getD k ⟨0, 0⟩).startTime
        = (((GeminiLive.runMessages st
            (GeminiLive.audioEvents ((t1, d1) :: rest))).1.log).getD 0 ⟨0, 0⟩).startTime
          + ((d1 :: rest.map Prod.snd).take k).sum := by
  have hrun : (GeminiLive.runMessages st
      (GeminiLive.audioEvents ((t1, d1) :: rest))).1.log
      = GeminiLive.chainFrom (max st.nextStartTime t1) (d1 :: rest.map Prod.snd) := by
    rw [GeminiLive.runMessages_audio_log, hlog, List.nil_append]
    simp only [GeminiLive.scheduleList]
    rw [GeminiLive.scheduleList_timely rest _ ht]
    rfl
  refine ⟨rfl, rfl, ?_, ?_⟩
  · rw [hrun, GeminiLive.chainFrom_map_duration]
  · intro k hk
    rw [hrun] at hk ⊢
    rw [GeminiLive.chainFrom_length] at hk
    rw [GeminiLive.chainFrom_getD _ _ _ hk,
      GeminiLive.chainFrom_getD _ _ 0 (by simp)]
    simp

/-- C1 witness: the amended statement at the concrete run with watermark 0
and chunks (time 0, duration 1) and (time 1, duration 2). -/
theorem c1_scheduler_gapfree_witness :
    (GeminiLive.handleServerMessage GeminiLive.initialPlayer 0
        (GeminiLive.audioMsg 1)).1.nextStartTime
      = max GeminiLive.initialPlayer.nextStartTime 0 + 1 ∧
    (GeminiLive.handleServerMessage GeminiLive.initialPlayer 0
        (GeminiLive.audioMsg 1)).1.log
      = GeminiLive.initialPlayer.log
          ++ [⟨max GeminiLive.initialPlayer.nextStartTime 0, 1⟩] ∧
    ((GeminiLive.runMessages GeminiLive.initialPlayer
        (GeminiLive.audioEvents ((0, 1) :: [(1, 2)]))).1.log).map
          GeminiLive.Segment.duration = 1 :: [(1, 2)].map Prod.snd ∧
    ∀ k, k < ((GeminiLive.runMessages GeminiLive.initialPlayer
        (GeminiLive.audioEvents ((0, 1) :: [(1, 2)]))).1.log).length →
      (((GeminiLive.runMessages GeminiLive.initialPlayer
          (GeminiLive.audioEvents ((0, 1) :: [(1, 2)]))).1.log).getD k ⟨0, 0⟩).startTime
        = (((GeminiLive.runMessages GeminiLive.initialPlayer
            (GeminiLive.audioEvents ((0, 1) :: [(1, 2)]))).1.log).getD 0 ⟨0, 0⟩).startTime
          + ((1 :: [(1, 2)].map Prod.snd).take k).sum :=
  c1_scheduler_gapfree GeminiLive.initialPlayer 0 1 [(1, 2)] rfl
    ⟨by simp [GeminiLive.initialPlayer], trivial⟩

/-- C1 counterexample: with watermark 0, a chunk at time 0 of duration 1
followed by a chunk arriving at time 5 (after the queue drained): the second
segment starts at 5, not at the first segment's start plus its duration, so
the unconditional gap-free formula of the claim is false. -/
theorem c1_scheduler_gapfree_counterexample :
    ¬ (((GeminiLive.runMessages GeminiLive.initialPlayer
          (GeminiLive.audioEvents [(0, 1), (5, 1)])).1.log).getD 1 ⟨0, 0⟩).startTime
      = (((GeminiLive.runMessages GeminiLive.initialPlayer
          (GeminiLive.audioEvents [(0, 1), (5, 1)])).1.log).getD 0 ⟨0, 0⟩).startTime
        + (((GeminiLive.runMessages GeminiLive.initialPlayer
            (GeminiLive.audioEvents [(0, 1), (5, 1)])).1.log).getD 0 ⟨0, 0⟩).duration := by
  simp only [GeminiLive.audioEvents, List.map_cons, List.map_nil,
    GeminiLive.runMessages, GeminiLive.handleServerMessage_audioMsg,
    GeminiLive.initialPlayer]
  norm_num [max_def, List.getD]

/-- C2 (amended): after handling a message carrying the interruption flag,
the active-segment set is empty and any segment that was scheduled but had
not yet started never starts (every active source is stopped at the current
time); the watermark, however, is reset to the constant 0 — not to the
current time.  Because every later chunk is scheduled at max(watermark,
currentTime), the next segment still starts at the then-current time, so
the reset to 0 is observationally equivalent to a reset to "now". -/
theorem c2_interruption (st : GeminiLive.PlayerState) (t : ℚ)
    (m : GeminiLive.ServerMessage) (hm : m.interrupted = true) :
    (GeminiLive.handleServerMessage st t m).1.sources = [] ∧
    (GeminiLive.handleServerMessage st t m).1.nextStartTime = 0 ∧
    ∀ s ∈ st.sources,
      (s, t) ∈ (GeminiLive.handleServerMessage st t m).1.stoppedAt ∧
        (t ≤ s.startTime → ∀ τ, ¬ GeminiLive.playsAt s (some t) τ) := by
  refine ⟨?_, ?_, ?_⟩
  · simp [GeminiLive.handleServerMessage, hm, GeminiLive.handleInterruption]
  · simp [GeminiLive.handleServerMessage, hm, GeminiLive.handleInterruption]
  · intro s hs
    constructor
    · have hmem : s ∈ (GeminiLive.handleAudio st t m.audio).sources := by
        cases haud : m.audio with
        | none => exact hs
        | some r =>
            cases r with
            | fail => exact hs
            | buf d => exact List.mem_append_left _ hs
      simp only [GeminiLive.handleServerMessage, hm, GeminiLive.handleInterruption]
      exact List.mem_append_right _ (List.mem_map_of_mem _ hmem)
    · intro hts τ hplay
      obtain ⟨h1, h2, h3⟩ := hplay
      have h4 := h3 t rfl
      linarith

/-- C2 witness: an interruption-only message at time 5 with one pending
source scheduled at time 7. -/
theorem c2_interruption_witness :
    (GeminiLive.handleServerMessage ⟨10, [⟨7, 2⟩], [], [⟨7, 2⟩]⟩ 5
        GeminiLive.interruptMsg).1.sources = [] ∧
    (GeminiLive.handleServerMessage ⟨10, [⟨7, 2⟩], [], [⟨7, 2⟩]⟩ 5
        GeminiLive.interruptMsg).1.nextStartTime = 0 ∧
    ∀ s ∈ (⟨10, [⟨7, 2⟩], [], [⟨7, 2⟩]⟩ : GeminiLive.PlayerState).sources,
      (s, 5) ∈ (GeminiLive.handleServerMessage ⟨10, [⟨7, 2⟩], [], [⟨7, 2⟩]⟩ 5
          GeminiLive.interruptMsg).1.stoppedAt ∧
        ((5 : ℚ) ≤ s.startTime → ∀ τ, ¬ GeminiLive.playsAt s (some 5) τ) :=
  c2_interruption ⟨10, [⟨7, 2⟩], [], [⟨7, 2⟩]⟩ 5 GeminiLive.interruptMsg rfl

/-- C2 counterexample: interruption handled at current time 5 leaves the
watermark at 0, not at the current time, so the claim's "watermark equals
now" is false. -/
theorem c2_interruption_counterexample :
    ¬ (GeminiLive.handleServerMessage GeminiLive.initialPlayer 5
        GeminiLive.interruptMsg).1.nextStartTime = 5 := by
  simp only [GeminiLive.handleServerMessage, GeminiLive.interruptMsg,
    GeminiLive.handleAudio, GeminiLive.handleInterruption,
    GeminiLive.initialPlayer]
  norm_num

/-- C6: a decode or playback error on one inbound chunk drops exactly that
chunk: nothing is scheduled for it (start log, source set and stop history
are unchanged), the watermark is not advanced by any duration (it is merely
clamped to the current time, as for every chunk), no callback fires, and a
later chunk is scheduled exactly as if the failing chunk had never arrived
(clock times being monotone). -/
theorem c6_decode_failure (st : GeminiLive.PlayerState) (t tn d : ℚ)
    (htn : t ≤ tn) :
    (GeminiLive.handleServerMessage st t GeminiLive.failMsg).1.sources = st.sources ∧
    (GeminiLive.handleServerMessage st t GeminiLive.failMsg).1.log = st.log ∧
    (GeminiLive.handleServerMessage st t GeminiLive.failMsg).1.stoppedAt = st.stoppedAt ∧
    (GeminiLive.handleServerMessage st t GeminiLive.failMsg).1.nextStartTime
      = max st.nextStartTime t ∧
    (GeminiLive.handleServerMessage st t GeminiLive.failMsg).2 = [] ∧
    (GeminiLive.handleServerMessage
        (GeminiLive.handleServerMessage st t GeminiLive.failMsg).1 tn
        (GeminiLive.audioMsg d)).1
      = (GeminiLive.handleServerMessage st tn (GeminiLive.audioMsg d)).1 := by
  have hmax : max (max st.nextStartTime t) tn = max st.nextStartTime tn := by
    rw [max_assoc, max_eq_right htn]
  refine ⟨rfl, rfl, rfl, rfl, rfl, ?_⟩
  simp [GeminiLive.handleServerMessage, GeminiLive.failMsg, GeminiLive.audioMsg,
    GeminiLive.handleAudio, GeminiLive.handleInterruption, hmax]

/-- C6 witness: a failing chunk at time 1 followed by a good chunk of
duration 2 at time 3, starting from the fresh player state. -/
theorem c6_decode_failure_witness :
    (GeminiLive.handleServerMessage GeminiLive.initialPlayer 1
        GeminiLive.failMsg).1.sources = GeminiLive.initialPlayer.sources ∧
    (GeminiLive.handleServerMessage GeminiLive.initialPlayer 1
        GeminiLive.failMsg).1.log = GeminiLive.initialPlayer.log ∧
    (GeminiLive.handleServerMessage GeminiLive.initialPlayer 1
        GeminiLive.failMsg).1.stoppedAt = GeminiLive.initialPlayer.stoppedAt ∧
    (GeminiLive.handleServerMessage GeminiLive.initialPlayer 1
        GeminiLive.failMsg).1.nextStartTime
      = max GeminiLive.initialPlayer.nextStartTime 1 ∧
    (GeminiLive.handleServerMessage GeminiLive.initialPlayer 1
        GeminiLive.failMsg).2 = [] ∧
    (GeminiLive.handleServerMessage
        (GeminiLive.handleServerMessage GeminiLive.initialPlayer 1
          GeminiLive.failMsg).1 3 (GeminiLive.audioMsg 2)).1
      = (GeminiLive.handleServerMessage GeminiLive.initialPlayer 3
          (GeminiLive.audioMsg 2)).1 :=
  c6_decode_failure GeminiLive.initialPlayer 1 3 2 (by norm_num)

/-- C7: disconnect stops and clears every currently scheduled playback
segment, tears down the capture graph (both nodes and the input context),
releases the output context and drops the session; and calling disconnect
again on the resulting state completes without any exception and changes
nothing.  The hypotheses say the held contexts are not already closed, which
is how connect creates them. -/
theorem c7_disconnect_idempotent (t t2 : ℚ) (s : GeminiLive.ServiceState)
    (hin : ∀ c, s.inputAudioContext = some c → c.closed = false)
    (hout : ∀ c, s.outputAudioContext = some c → c.closed = false) :
    ∃ s2, GeminiLive.disconnect t s = .ok s2 ∧
      s2.player.sources = [] ∧
      (∀ seg ∈ s.player.sources, (seg, t) ∈ s2.player.stoppedAt) ∧
      s2.inputSource = false ∧ s2.scriptProcessor = false ∧
      s2.inputAudioContext = none ∧ s2.outputAudioContext = none ∧
      s2.session = false ∧
      GeminiLive.disconnect t2 s2 = .ok s2 := by
  obtain ⟨inS, sp, ictx, octx, p, ses⟩ := s
  have hmem : ∀ seg ∈ p.sources,
      (seg, t) ∈ p.stoppedAt ++ p.sources.map (fun sg => (sg, t)) :=
    fun seg hseg => List.mem_append_right _ (List.mem_map_of_mem _ hseg)
  rcases ictx with _ | ⟨⟨b⟩⟩
  · rcases octx with _ | ⟨⟨b2⟩⟩
    · refine ⟨_, rfl, rfl, hmem, rfl, rfl, rfl, rfl, rfl, ?_⟩
      simp [GeminiLive.disconnect]
    · have hb2 : b2 = false := hout ⟨b2⟩ rfl
      subst hb2
      refine ⟨_, rfl, rfl, hmem, rfl, rfl, rfl, rfl, rfl, ?_⟩
      simp [GeminiLive.disconnect]
  · have hb : b = false := hin ⟨b⟩ rfl
    subst hb
    rcases octx with _ | ⟨⟨b2⟩⟩
    · refine ⟨_, rfl, rfl, hmem, rfl, rfl, rfl, rfl, rfl, ?_⟩
      simp [GeminiLive.disconnect]
    · have hb2 : b2 = false := hout ⟨b2⟩ rfl
      subst hb2
      refine ⟨_, rfl, rfl, hmem, rfl, rfl, rfl, rfl, rfl, ?_⟩
      simp [GeminiLive.disconnect]

/-- C7 witness: a fully connected service (both nodes present, both contexts
open, one scheduled source) disconnected at time 7, then again at time 9. -/
theorem c7_disconnect_idempotent_witness :
    ∃ s2, GeminiLive.disconnect 7
        (⟨true, true, some ⟨false⟩, some ⟨false⟩,
          ⟨3, [⟨1, 2⟩], [], [⟨1, 2⟩]⟩, true⟩ : GeminiLive.ServiceState) = .ok s2 ∧
      s2.player.sources = [] ∧
      (∀ seg ∈ (⟨true, true, some ⟨false⟩, some ⟨false⟩,
          ⟨3, [⟨1, 2⟩], [], [⟨1, 2⟩]⟩, true⟩ : GeminiLive.ServiceState).player.sources,
        (seg, (7 : ℚ)) ∈ s2.player.stoppedAt) ∧
      s2.inputSource = false ∧ s2.scriptProcessor = false ∧
      s2.inputAudioContext = none ∧ s2.outputAudioContext = none ∧
      s2.session = false ∧
      GeminiLive.disconnect 9 s2 = .ok s2 :=
  c7_disconnect_idempotent 7 9 _
    (fun c hc => by cases hc; rfl) (fun c hc => by cases hc; rfl)

/-- C8: with a missing (or empty, i.e. falsy) API key, handleConnect fails
before any resource is acquired: the resulting state records ERROR with the
error message set, no service object is constructed, no audio context is
created, no microphone stream is requested and no session is requested —
all audit fields keep their previous values. -/
theorem c8_missing_key (apiKey : Option String) (micOk : Bool)
    (st : AppModel.AppState) (hk : AppModel.falsyKey apiKey = true) :
    AppModel.handleConnect apiKey micOk st =
      { st with
        connectionState := .error
        errorMsg := some "API Key is missing in environment." } ∧
    (AppModel.handleConnect apiKey micOk st).serviceConstructed = st.serviceConstructed ∧
    (AppModel.handleConnect apiKey micOk st).audioContextsCreated = st.audioContextsCreated ∧
    (AppModel.handleConnect apiKey micOk st).micRequested = st.micRequested ∧
    (AppModel.handleConnect apiKey micOk st).sessionRequested = st.sessionRequested := by
  refine ⟨?_, ?_, ?_, ?_, ?_⟩ <;> simp [AppModel.handleConnect, hk]

/-- C8 witness: connecting from the freshly mounted App with no API key in
the environment. -/
theorem c8_missing_key_witness :
    AppModel.handleConnect none true AppModel.initialAppState =
      { AppModel.initialAppState with
        connectionState := .error
        errorMsg := some "API Key is missing in environment." } ∧
    (AppModel.handleConnect none true AppModel.initialAppState).serviceConstructed
      = AppModel.initialAppState.serviceConstructed ∧
    (AppModel.handleConnect none true AppModel.initialAppState).audioContextsCreated
      = AppModel.initialAppState.audioContextsCreated ∧
    (AppModel.handleConnect none true AppModel.initialAppState).micRequested
      = AppModel.initialAppState.micRequested ∧
    (AppModel.handleConnect none true AppModel.initialAppState).sessionRequested
      = AppModel.initialAppState.sessionRequested :=
  c8_missing_key none true AppModel.initialAppState rfl

/-- C5: the transcript history is append-only and items appear in exactly
the order their source callbacks fired: running any event sequence appends
its contributed items, in firing order, to the existing history, and
running further events only appends after what is already there — no item
is ever mutated or removed. -/
theorem c5_transcript_append_only (h : List AppModel.TranscriptionItem)
    (evs evs2 : List AppModel.TEvent) :
    AppModel.runTranscriptions h evs = h ++ evs.filterMap AppModel.mkItem ∧
    AppModel.runTranscriptions h (evs ++ evs2)
      = AppModel.runTranscriptions h evs ++ evs2.filterMap AppModel.mkItem := by
  refine ⟨AppModel.runTranscriptions_eq evs h, ?_⟩
  rw [AppModel.runTranscriptions_eq, AppModel.runTranscriptions_eq,
    List.filterMap_append, List.append_assoc]

/-- C9: the service invokes the transcription callback with isFinal = false
for both input and output fragments, and consequently every item ever
appended to a transcript history whose existing items all have the flag
clear (and whose callback firings come from the service, i.e. carry
isFinal = false) also has its finality flag equal to false. -/
theorem c9_isFinal_never_set (st : GeminiLive.PlayerState) (t : ℚ)
    (m : GeminiLive.ServerMessage) (h : List AppModel.TranscriptionItem)
    (evs : List AppModel.TEvent)
    (hh : ∀ i ∈ h, i.isFinal = false) (hevs : ∀ e ∈ evs, e.isFinal = false) :
    (∀ c ∈ (GeminiLive.handleServerMessage st t m).2, c.isFinal = false) ∧
    ∀ i ∈ AppModel.runTranscriptions h evs, i.isFinal = false := by
  constructor
  · intro c hc
    obtain ⟨mi, mo, tc, au, ir⟩ := m
    cases mi with
    | none =>
        cases mo with
        | none =>
            simp [GeminiLive.handleServerMessage, GeminiLive.transcriptionCalls] at hc
        | some txt =>
            simp [GeminiLive.handleServerMessage, GeminiLive.transcriptionCalls] at hc
            subst hc
            rfl
    | some txt =>
        cases mo with
        | none =>
            simp [GeminiLive.handleServerMessage, GeminiLive.transcriptionCalls] at hc
            subst hc
            rfl
        | some txt2 =>
            simp [GeminiLive.handleServerMessage, GeminiLive.transcriptionCalls] at hc
            rcases hc with rfl | rfl <;> rfl
  · intro i hi
    rw [AppModel.runTranscriptions_eq] at hi
    rcases List.mem_append.mp hi with hi | hi
    · exact hh i hi
    · obtain ⟨e, he, hmk⟩ := List.mem_filterMap.mp hi
      by_cases hb : AppModel.jsTrim e.text = ""
      · simp [AppModel.mkItem, hb] at hmk
      · simp only [AppModel.mkItem, if_neg hb, Option.some.injEq] at hmk
        subst hmk
        exact hevs e he

/-- C9 witness: one message carrying an input-transcription fragment, and
the matching single callback firing folded into the empty history. -/
theorem c9_isFinal_never_set_witness :
    (∀ c ∈ (GeminiLive.handleServerMessage GeminiLive.initialPlayer 0
        (⟨some "hi", none, false, none, false⟩ : GeminiLive.ServerMessage)).2,
      c.isFinal = false) ∧
    ∀ i ∈ AppModel.runTranscriptions []
        [⟨"hi", true, false, ⟨"1", 0⟩⟩], i.isFinal = false :=
  c9_isFinal_never_set GeminiLive.initialPlayer 0
    ⟨some "hi", none, false, none, false⟩ [] [⟨"hi", true, false, ⟨"1", 0⟩⟩]
    (by intro i hi; simp at hi)
    (by intro e he; simp only [List.mem_singleton] at he; subst he; rfl)

/-- C10: a transcription callback firing whose text consists only of
whitespace characters (including the empty text) leaves the transcript
history unchanged: no item is appended. -/
theorem c10_whitespace_dropped (prev : List AppModel.TranscriptionItem)
    (meta : AppModel.ItemMeta) (text : String) (isUser isFin : Bool)
    (hw : ∀ c ∈ text.data, c.isWhitespace) :
    AppModel.handleTranscription prev meta text isUser isFin = prev := by
  have ht : AppModel.jsTrim text = "" := by
    simp only [AppModel.jsTrim]
    rw [List.dropWhile_eq_nil_iff.mpr hw]
    rfl
  simp [AppModel.handleTranscription, ht]

/-- C10 witness: a single-space fragment leaves a one-item history
unchanged. -/
theorem c10_whitespace_dropped_witness :
    AppModel.handleTranscription [⟨"0", "hello", .user, 1, false⟩] ⟨"1", 2⟩
      " " true false = [⟨"0", "hello", .user, 1, false⟩] :=
  c10_whitespace_dropped [⟨"0", "hello", .user, 1, false⟩] ⟨"1", 2⟩
    " " true false (by decide)
